import Mathlib

/-!
Shallow embedding of the embody-financial-audit-pack reconciliation scripts
(src/reconciliations/2026-02-07/verify_legacy_funding_and_conversions.py,
verify_payout_totals.py, verify_usdc_treasury.py).

Strings are modelled as lists of Unicode code points (List Nat); every input
the scripts handle is ASCII.  Python exceptions are modelled as none / error
results; arbitrary-precision Decimal values are modelled exactly, as a pair
(coefficient, scale) with value = coefficient / 10 ^ scale, which is faithful
for the plain decimal literals the scripts read (the scripts set the Decimal
context precision to 60 resp. 80 significant digits, which keeps every
arithmetic step of interest exact at on-chain magnitudes; where an operation
could round at that precision, the corresponding theorem carries an explicit
size hypothesis).
-/

namespace Audit

/-- Code points of a string literal (ASCII model of Python str). -/
def str (s : String) : List Nat := s.toList.map Char.toNat

/-- ASCII whitespace stripped by Python str.strip (tab, LF, VT, FF, CR, space). -/
def isWs (n : Nat) : Bool := n = 32 || n = 9 || n = 10 || n = 11 || n = 12 || n = 13

/-- Python str.strip: drop whitespace from both ends. -/
def pyStrip (s : List Nat) : List Nat :=
  ((s.dropWhile isWs).reverse.dropWhile isWs).reverse

/-- Python str.lower on an ASCII code point. -/
def lowerByte (n : Nat) : Nat := if 65 ≤ n ∧ n ≤ 90 then n + 32 else n

/-- Python str.lower on an ASCII string. -/
def lowerStr (s : List Nat) : List Nat := s.map lowerByte

/-- Value of one hexadecimal digit (0-9, a-f, A-F). -/
def hexDigitVal (n : Nat) : Option Nat :=
  if 48 ≤ n ∧ n ≤ 57 then some (n - 48)
  else if 97 ≤ n ∧ n ≤ 102 then some (n - 87)
  else if 65 ≤ n ∧ n ≤ 70 then some (n - 55)
  else none

def parseHexDigitsAux : List Nat → Nat → Option Nat
  | [], acc => some acc
  | c :: r, acc =>
    match hexDigitVal c with
    | none => none
    | some d => parseHexDigitsAux r (acc * 16 + d)

/-- Big-endian value of a nonempty run of hex digits; none on a bad digit. -/
def parseHexDigits (s : List Nat) : Option Nat :=
  if s = [] then none else parseHexDigitsAux s 0

/-- Drop an optional 0x / 0X prefix (48 113 are the codes of 0 and q; 120 is x, 88 is X). -/
def dropHexPfx (s : List Nat) : List Nat :=
  if s.take 2 = [48, 120] ∨ s.take 2 = [48, 88] then s.drop 2 else s

/-- Python int(s, 16) for the nonnegative hex quantities the RPC returns:
    strip whitespace, allow an optional 0x prefix, then at least one hex digit;
    none models the raised ValueError. -/
def parseHexPy (s : List Nat) : Option Nat := parseHexDigits (dropHexPfx (pyStrip s))

def isDigitB (n : Nat) : Bool := 48 ≤ n && n ≤ 57

def digitsToNat (s : List Nat) : Nat := s.foldl (fun a c => a * 10 + (c - 48)) 0

/-- Helper for parseDecimal: parse digits [. digits] with a given sign. -/
def parseDecimalCore (t : List Nat) (sign : Int) : Option (Int × Nat) :=
  let ip := t.takeWhile isDigitB
  let rest := t.dropWhile isDigitB
  match rest with
  | [] => if ip = [] then none else some (sign * digitsToNat ip, 0)
  | c :: fr =>
    if c = 46 ∧ fr.all isDigitB ∧ (ip ≠ [] ∨ fr ≠ []) then
      some (sign * digitsToNat (ip ++ fr), fr.length)
    else none

/-- Python Decimal(string) for plain decimal literals [sign] digits [. digits]
    (the only shape the sidecar files and the recomputed totals use).
    Result (c, e) denotes the exact value c / 10 ^ e; none models the raised
    InvalidOperation. -/
def parseDecimal (s : List Nat) : Option (Int × Nat) :=
  match pyStrip s with
  | 45 :: r => parseDecimalCore r (-1)
  | 43 :: r => parseDecimalCore r 1
  | t => parseDecimalCore t 1

/-- Round a / b (for b > 0) to the nearest integer, ties to the even integer:
    Python Decimal.to_integral_value under the default context rounding
    ROUND_HALF_EVEN (the scripts change only the context precision). -/
def roundHalfEven (a b : Int) : Int :=
  let q := Int.ediv a b
  let r := Int.emod a b
  if 2 * r < b then q
  else if b < 2 * r then q + 1
  else if 2 ∣ q then q else q + 1

/- Program actors and tokens (Arbitrum One), lowercase constants of the scripts. -/

def TREASURY : List Nat := str ("0x04e334ff13c71488094e24f4fab53a8fafe2f9bb")
def GATEWAY : List Nat := str ("0x8a8053c21696f27ed305a03bd1efc5d068d91d0e")
def TESTING_WALLET : List Nat := str ("0xa03113bab8d4ebe5695591f60011741233e8b82f")
def SAFE_WALLET : List Nat := str ("0xc34b3753c164fbc3fc066fc1a46b3eee8adb33e6")
def LPT : List Nat := str ("0x289ba1701c2f088cf0faf8b3705246331cb8a839")
def USDC : List Nat := str ("0xaf88d065e77c8cc2239327c5edb3a432268e5831")
def WETH : List Nat := str ("0x82af49447d8a07e3bd95bd0d56f35241523fbab1")
def ROUTER : List Nat := str ("0x2905d7e4d048d29954f81b02171dd313f457a4a4")
def ZERO_ADDR : List Nat := str ("0x0000000000000000000000000000000000000000")
def TRANSFER_TOPIC0 : List Nat :=
  str ("0xddf252ad1be2c89b69c2b068fc378daa952ba7f163c4a11628f55a4df523b3ef")

/-- _lower_addr of verify_legacy_funding_and_conversions.py: strip, lowercase,
    and ensure a 0x prefix; no length validation or padding. -/
def lowerAddr (addr : List Nat) : List Nat :=
  let a := lowerStr (pyStrip addr)
  if a = [] then a
  else if a.take 2 = [48, 120] ∧ a.length = 42 then a
  else if a.take 2 = [48, 120] then [48, 120] ++ a.drop 2
  else [48, 120] ++ a

/-- _lower_addr of verify_payout_totals.py: strip and lowercase only. -/
def lowerAddrP (addr : List Nat) : List Nat := lowerStr (pyStrip addr)

/-- _decode_topic_addr: the low 20 bytes (last 40 hex chars) of a 32-byte topic;
    none models the raised ValueError on a malformed topic. -/
def decodeTopicAddr (topic : List Nat) : Option (List Nat) :=
  let t := lowerStr topic
  if t.take 2 = [48, 120] ∧ t.length = 66 then some ([48, 120] ++ t.drop 26) else none

/- Chain records as fetched over RPC (string fields as hex strings; an absent
   JSON field is none). -/

structure Log where
  address : List Nat
  topics : List (List Nat)
  data : List Nat
  txHash : List Nat
  logIndex : List Nat
deriving DecidableEq

inductive StatusField where
  | asInt : Int → StatusField
  | asStr : List Nat → StatusField
deriving DecidableEq

structure Receipt where
  status : Option StatusField
  gasUsed : Option (List Nat)
  effectiveGasPrice : Option (List Nat)
  blockNumber : Option (List Nat)
  logs : List Log
deriving DecidableEq

structure Tx where
  fromA : Option (List Nat)
  toA : Option (List Nat)
  value : Option (List Nat)
  blockNumber : Option (List Nat)
  callInput : Option (List Nat)
deriving DecidableEq

/-- Python x.get(k) or "" for string fields. -/
def orEmpty (o : Option (List Nat)) : List Nat :=
  match o with
  | none => []
  | some s => s

/-- Python x.get(k) or "0x0" for hex quantity fields. -/
def orHex0 (o : Option (List Nat)) : List Nat :=
  match o with
  | none => str ("0x0")
  | some s => if s = [] then str ("0x0") else s

/-- _receipt_ok: missing status is failure; an int status is compared to 1; a
    string status is parsed as hex and compared to 1 (none models the raised
    ValueError on an unparsable string). -/
def receiptOk (r : Receipt) : Option Bool :=
  match r.status with
  | none => some false
  | some (StatusField.asInt n) => some (decide (n = 1))
  | some (StatusField.asStr s) => (parseHexPy s).map (fun v => decide (v = 1))

/-- Wei gas fee of _receipt_gas_fee_eth: int(gasUsed or 0x0) times
    int(effectiveGasPrice or 0x0). -/
def receiptGasFeeWei (r : Receipt) : Option Nat :=
  match parseHexPy (orHex0 r.gasUsed), parseHexPy (orHex0 r.effectiveGasPrice) with
  | some g, some p => some (g * p)
  | _, _ => none

/-- _receipt_gas_fee_eth: Decimal(gas_used * effective_gas_price) / Decimal(10^18),
    exact at the script precision of 60 significant digits for every on-chain
    magnitude (a gas fee in wei is far below 10^60). -/
def receiptGasFeeEth (r : Receipt) : Option ℚ :=
  (receiptGasFeeWei r).map (fun w => (w : ℚ) / 10 ^ 18)

structure TransferEntry where
  fromA : List Nat
  toA : List Nat
  value : Nat
deriving DecidableEq

/-- Loop of _erc20_transfers_in_receipt over the receipt logs: keep logs whose
    emitting address equals the token (case-insensitively), whose first topic
    equals the Transfer signature, and which carry at least three topics; decode
    topics 1 and 2 as addresses and the data field as a big-endian value. -/
def decodeTransferLogs (token : List Nat) : List Log → Option (List TransferEntry)
  | [] => some []
  | l :: rest =>
    if lowerAddr l.address ≠ lowerAddr token then decodeTransferLogs token rest
    else if l.topics = [] then decodeTransferLogs token rest
    else if lowerStr (l.topics.headD []) ≠ TRANSFER_TOPIC0 then decodeTransferLogs token rest
    else if l.topics.length < 3 then decodeTransferLogs token rest
    else
      match decodeTopicAddr (l.topics.getD 1 []), decodeTopicAddr (l.topics.getD 2 []),
          parseHexPy (orHex0 (some l.data)), decodeTransferLogs token rest with
      | some f, some t, some v, some es => some (⟨f, t, v⟩ :: es)
      | _, _, _, _ => none

/-- _erc20_transfers_in_receipt. -/
def erc20TransfersInReceipt (r : Receipt) (token : List Nat) : Option (List TransferEntry) :=
  decodeTransferLogs token r.logs

/-- The filter _erc20_transfers_in_receipt applies to each log, written as a
    predicate for the characterization theorem (note: at least three topics,
    not exactly three). -/
def keepLog (token : List Nat) (l : Log) : Bool :=
  decide (lowerAddr l.address = lowerAddr token ∧ l.topics ≠ [] ∧
    lowerStr (l.topics.headD []) = TRANSFER_TOPIC0 ∧ 3 ≤ l.topics.length)

/-- Decoding of one kept Transfer log, following the spec text: from and to are
    the low 20 bytes of topics 1 and 2, value is the data field read as a
    big-endian unsigned integer (missing or empty data counts as 0x0). -/
def decodeKept (l : Log) : Option TransferEntry :=
  match decodeTopicAddr (l.topics.getD 1 []), decodeTopicAddr (l.topics.getD 2 []),
      parseHexPy (orHex0 (some l.data)) with
  | some f, some t, some v => some ⟨f, t, v⟩
  | _, _, _ => none

structure SafeExec where
  toA : List Nat
  valueWei : Nat
deriving DecidableEq

/-- The normalized calldata _decode_safe_exec_transaction works on: strip,
    lowercase, drop an optional 0x prefix. -/
def stripHexInput (inputHex : List Nat) : List Nat :=
  let h := lowerStr (pyStrip inputHex)
  if h.take 2 = [48, 120] then h.drop 2 else h

/-- _decode_safe_exec_transaction: fail if fewer than 4+32+32 bytes
    (136 hex chars) remain, else read the first two 32-byte words after the
    4-byte selector; the destination is the low 20 bytes of word one, the value
    is word two as a big-endian integer. -/
def decodeSafeExecTransaction (inputHex : List Nat) : Option SafeExec :=
  let h := stripHexInput inputHex
  if h.length < 136 then none
  else
    let toWord := (h.drop 8).take 64
    let valueWord := (h.drop 72).take 64
    match parseHexPy valueWord with
    | none => none
    | some v => some ⟨lowerAddr ([48, 120] ++ toWord.drop 24), v⟩

structure FlowRow where
  blockNumber : Nat
  fromA : List Nat
  toA : List Nat
  amountRaw : Nat
  amount : ℚ
  gasFeeEth : ℚ
deriving DecidableEq

/-- One iteration of the Phase 1 testing-wallet-return verification in main of
    verify_legacy_funding_and_conversions.py: parse the expected decimal amount,
    convert it to wei with to_integral_value (context rounding, half-even),
    and require sender, recipient, exact value and a successful receipt; any
    mismatch or parse failure raises (modelled as none). -/
def verifyTestingReturn (amountEth : List Nat) (tx : Tx) (rec : Receipt) : Option FlowRow :=
  match parseDecimal amountEth with
  | none => none
  | some (c, e) =>
    let expWei := roundHalfEven (c * 10 ^ 18) (10 ^ e)
    match receiptOk rec with
    | none => none
    | some ok =>
      let gotFrom := lowerAddr (orEmpty tx.fromA)
      let gotTo := lowerAddr (orEmpty tx.toA)
      match parseHexPy (orHex0 tx.value) with
      | none => none
      | some gotVal =>
        if gotFrom = TESTING_WALLET ∧ gotTo = GATEWAY ∧ (gotVal : Int) = expWei ∧ ok = true then
          match parseHexPy (orHex0 tx.blockNumber), receiptGasFeeWei rec with
          | some bn, some gf =>
            some ⟨bn, gotFrom, gotTo, gotVal, (gotVal : ℚ) / 10 ^ 18, (gf : ℚ) / 10 ^ 18⟩
          | _, _ => none
        else none

/- Reconciliation comparison of verify_payout_totals.main (C3). -/

/-- The six totals keys main compares against the committed file. -/
def totalsKeys : List (List Nat) :=
  [str ("phase1+2_ticket_eth"), str ("phase3_transfer_eth"), str ("manual_ticket_eth"),
   str ("dec31_ticket_eth"), str ("jan22_ticket_eth"), str ("total_eth")]

/-- Dictionary lookup on an association list. -/
def lookupKV (m : List (List Nat × List Nat)) (k : List Nat) : Option (List Nat) :=
  match m with
  | [] => none
  | (k2, v) :: r => if k2 = k then some v else lookupKV r k

/-- Python Decimal(a) != Decimal(b) negated: exact equality of the two decimal
    values (not of the strings); none models a raised InvalidOperation. -/
def decEqStr (a b : List Nat) : Option Bool :=
  match parseDecimal a, parseDecimal b with
  | some (c1, e1), some (c2, e2) => some (decide (c1 * 10 ^ e2 = c2 * 10 ^ e1))
  | _, _ => none

/-- The mismatch collection loop of verify_payout_totals.main: walk the fixed
    key list, skip keys absent from the committed file, record every key whose
    committed and recomputed decimal values differ. -/
def mismatchKeys (expected recomputed : List (List Nat × List Nat)) :
    List (List Nat) → Option (List (List Nat))
  | [] => some []
  | k :: ks =>
    match lookupKV expected k with
    | none => mismatchKeys expected recomputed ks
    | some ev =>
      match lookupKV recomputed k with
      | none => none
      | some rv =>
        match decEqStr ev rv, mismatchKeys expected recomputed ks with
        | some b, some rest => some (if b then rest else k :: rest)
        | _, _ => none

/-- Completion code of the comparison stage of verify_payout_totals.main:
    0 when no committed totals file exists (empty dict) or all compared keys
    match, 2 on any mismatch; none models a crash (uncaught exception). -/
def compareExitCode (expected recomputed : List (List Nat × List Nat)) : Option Nat :=
  if expected = [] then some 0
  else
    match mismatchKeys expected recomputed totalsKeys with
    | none => none
    | some ms => some (if ms = [] then 0 else 2)

/- Conversion classification of verify_legacy_funding_and_conversions.main (C5). -/

structure ConvSums where
  lptOut : Nat
  usdcIn : Nat
  wethGrossIn : Nat
  wethBurn : Nat
  wethOtherOut : Nat
deriving DecidableEq

/-- Python sum(t.value for t in ts if p t). -/
def sumWhere (p : TransferEntry → Bool) (ts : List TransferEntry) : Nat :=
  (ts.filter p).foldl (fun a t => a + t.value) 0

/-- The five net-flow sums main computes for a candidate conversion
    transaction from the LPT / USDC / WETH Transfer logs of its receipt. -/
def convSums (rec : Receipt) : Option ConvSums :=
  match erc20TransfersInReceipt rec LPT, erc20TransfersInReceipt rec USDC,
      erc20TransfersInReceipt rec WETH with
  | some lpt, some usdc, some weth =>
    some ⟨
      sumWhere (fun t => decide (lowerAddr t.fromA = TREASURY ∧ lowerAddr t.toA = ROUTER)) lpt,
      sumWhere (fun t => decide (lowerAddr t.toA = TREASURY)) usdc,
      sumWhere (fun t => decide (lowerAddr t.toA = ROUTER ∧ lowerAddr t.fromA ≠ ROUTER)) weth,
      sumWhere (fun t => decide (lowerAddr t.fromA = ROUTER ∧ lowerAddr t.toA = ZERO_ADDR)) weth,
      sumWhere (fun t => decide (lowerAddr t.fromA = ROUTER ∧ lowerAddr t.toA ≠ ROUTER ∧
        lowerAddr t.toA ≠ ZERO_ADDR)) weth⟩
  | _, _, _ => none

/-- The classification step of main: a transaction whose lpt_out, usdc_in,
    weth_gross_in and weth_burn sums are all zero is skipped (continue, no
    row); otherwise the tag is LPT_to_USDC, LPT_to_ETH_like or unknown. -/
def conversionType (s : ConvSums) : Option (List Nat) :=
  if s.lptOut = 0 ∧ s.usdcIn = 0 ∧ s.wethGrossIn = 0 ∧ s.wethBurn = 0 then none
  else if 0 < s.lptOut ∧ 0 < s.usdcIn then some (str ("LPT_to_USDC"))
  else if 0 < s.lptOut ∧ 0 < s.wethGrossIn then some (str ("LPT_to_ETH_like"))
  else some (str ("unknown"))

/- Log range scanner _sum_ticketbroker_sender_logs of verify_payout_totals.py (C6). -/

inductive ScanErr where
  | rpc : List Nat → ScanErr
  | badData : ScanErr
deriving DecidableEq

def isPfxOf : List Nat → List Nat → Bool
  | [], _ => true
  | _ :: _, [] => false
  | a :: as, b :: bs => decide (a = b) && isPfxOf as bs

def isSubstr (pat : List Nat) : List Nat → Bool
  | [] => decide (pat = [])
  | c :: r => isPfxOf pat (c :: r) || isSubstr pat r

/-- The oversized-response test: the lowercased error text contains
    more than, limit, or response size. -/
def isOversizedMsg (e : List Nat) : Bool :=
  let m := lowerStr e
  isSubstr (str ("more than")) m || isSubstr (str ("limit")) m ||
    isSubstr (str ("response size")) m

/-- Per-chunk accumulation: count the logs and sum int(log data or 0x0, 16);
    none models a raised ValueError on unparsable data. -/
def sumLogData : List Log → Option (Nat × Nat)
  | [] => some (0, 0)
  | l :: r =>
    match parseHexPy (orHex0 (some l.data)), sumLogData r with
    | some v, some (c, t) => some (c + 1, t + v)
    | _, _ => none

/-- The scanning loop of _sum_ticketbroker_sender_logs.  fetch lo hi models the
    eth_getLogs call for blocks lo..hi; on an error whose text matches the
    oversized patterns the chunk size is halved (floor 10000) and the same
    sub-range is retried, at or below the floor the error propagates; any other
    error propagates; a successful chunk is accumulated and the scan advances.
    Block arithmetic is over Nat; hi is written cur + (chunk - 1) which agrees
    with the script for every chunk size at least 1 (the script starts at
    2000000 and the floor is 10000). -/
def scanLogs (fetch : Nat → Nat → Except (List Nat) (List Log)) (ed : Nat)
    (cur chunk count total : Nat) : Except ScanErr (Nat × Nat) :=
  if _h : cur ≤ ed then
    match fetch cur (min (cur + (chunk - 1)) ed) with
    | Except.error e =>
      if isOversizedMsg e then
        if hc : chunk ≤ 10000 then Except.error (ScanErr.rpc e)
        else scanLogs fetch ed cur (max 10000 (chunk / 2)) count total
      else Except.error (ScanErr.rpc e)
    | Except.ok logs =>
      match sumLogData logs with
      | none => Except.error ScanErr.badData
      | some (c, t) =>
        scanLogs fetch ed (min (cur + (chunk - 1)) ed + 1) chunk (count + c) (total + t)
  else Except.ok (count, total)
termination_by (ed + 1 - cur) * (chunk + 1) + chunk
decreasing_by
  · have hm : max 10000 (chunk / 2) < chunk := by omega
    have h1 : (ed + 1 - cur) * (max 10000 (chunk / 2) + 1) ≤ (ed + 1 - cur) * (chunk + 1) :=
      Nat.mul_le_mul_left _ (by omega)
    exact add_lt_add_of_le_of_lt h1 hm
  · have h2 : (ed + 1 - (min (cur + (chunk - 1)) ed + 1)) * (chunk + 1) <
        (ed + 1 - cur) * (chunk + 1) :=
      Nat.mul_lt_mul_of_lt_of_le (by omega) (le_refl (chunk + 1)) (by omega)
    exact Nat.add_lt_add_right h2 chunk

/-- The sub-range decomposition the scan performs when every chunk succeeds. -/
def scanChunks (ed cur chunk : Nat) : List (Nat × Nat) :=
  if _h : cur ≤ ed then
    (cur, min (cur + (chunk - 1)) ed) :: scanChunks ed (min (cur + (chunk - 1)) ed + 1) chunk
  else []
termination_by ed + 1 - cur
decreasing_by omega

/-- Concatenation of the per-chunk log lists, in block order. -/
def catChunks (logsFor : Nat → Nat → List Log) (ps : List (Nat × Nat)) : List Log :=
  ps.foldr (fun p acc => logsFor p.1 p.2 ++ acc) []

/- USDC treasury aggregation of verify_usdc_treasury.py (C9). -/

/-- De-duplication key: (transaction hash, log index), lowercased. -/
def mergeKey (l : Log) : List Nat × List Nat := (lowerStr l.txHash, lowerStr l.logIndex)

/-- One Python dict insertion merged[key] = l: update in place if the key is
    present (keeping its position), else append. -/
def insertLog (acc : List Log) (l : Log) : List Log :=
  if acc.any (fun x => decide (mergeKey x = mergeKey l)) then
    acc.map (fun x => if mergeKey x = mergeKey l then l else x)
  else acc ++ [l]

/-- _fetch_token_transfers merging: outflow query results then inflow query
    results, de-duplicated by (tx hash, log index). -/
def mergeLogs (outLogs inLogs : List Log) : List Log :=
  (outLogs ++ inLogs).foldl insertLog []

/-- Direction classification of main over decoded (lowercased) addresses. -/
def direction (f t : List Nat) : List Nat :=
  if f = TREASURY ∧ t = TREASURY then str ("self")
  else if f = TREASURY then str ("out")
  else if t = TREASURY then str ("in")
  else str ("other")

structure TransferRow where
  fromA : List Nat
  toA : List Nat
  dir : List Nat
  amountRaw : Nat
deriving DecidableEq

/-- Row construction of main: decode topics 1 and 2, parse the data field
    (no default here: the data key is always present on eth_getLogs results),
    and classify the direction. -/
def mkTransferRow (l : Log) : Option TransferRow :=
  match decodeTopicAddr (l.topics.getD 1 []), decodeTopicAddr (l.topics.getD 2 []),
      parseHexPy l.data with
  | some f, some t, some v => some ⟨f, t, direction f t, v⟩
  | _, _, _ => none

/-- The per-token aggregation loop of main: accumulate (inflow, outflow) raw
    totals; rows with direction self or other touch neither total. -/
def usdcTotals (ts : List TransferRow) : Nat × Nat :=
  ts.foldl (fun p t =>
    if t.dir = str ("in") then (p.1 + t.amountRaw, p.2)
    else if t.dir = str ("out") then (p.1, p.2 + t.amountRaw)
    else p) (0, 0)

/-- net_raw = tin_raw - tout_raw as reported in the summary. -/
def usdcNetRaw (ts : List TransferRow) : Int :=
  ((usdcTotals ts).1 : Int) - ((usdcTotals ts).2 : Int)

/-- Sum of the raw amounts of the rows with a given direction tag. -/
def dirSum (d : List Nat) (ts : List TransferRow) : Nat :=
  ((ts.filter (fun t => decide (t.dir = d))).map TransferRow.amountRaw).sum

/- Theorems. -/

/-- Whenever _receipt_ok does not yield True, the testing-return verification
    raises, whatever the transaction fields are. -/
theorem verify_none_of_receipt_not_ok (amountEth : List Nat) (tx : Tx) (rec : Receipt)
    (h : receiptOk rec ≠ some true) : verifyTestingReturn amountEth tx rec = none := by
  unfold verifyTestingReturn
  cases hpd : parseDecimal amountEth with
  | none => rfl
  | some ce =>
    obtain ⟨c, e⟩ := ce
    cases hok : receiptOk rec with
    | none => rfl
    | some ok =>
      cases ok with
      | true => exact absurd hok h
      | false =>
        cases hv : parseHexPy (orHex0 tx.value) with
        | none => rfl
        | some gotVal => simp

/-- C2: for every expected flow, if the fetched receipt status field does not
    equal 1 (missing status, an integer status other than 1, or a string status
    whose hex value is not 1 or does not parse), verification raises a fault
    (modelled as none) that aborts the run, regardless of whether the sender,
    recipient and amount all match the expectation. -/
theorem c2_status_not_one_aborts (amountEth : List Nat) (tx : Tx) (rec : Receipt)
    (h : rec.status = none ∨
         (∃ n, rec.status = some (StatusField.asInt n) ∧ n ≠ 1) ∨
         (∃ s, rec.status = some (StatusField.asStr s) ∧ parseHexPy s ≠ some 1)) :
    verifyTestingReturn amountEth tx rec = none := by
  apply verify_none_of_receipt_not_ok
  rcases h with h | ⟨n, hs, hn⟩ | ⟨s, hs, hp⟩
  · simp [receiptOk, h]
  · simp [receiptOk, hs, hn]
  · rw [receiptOk, hs]
    simpa using hp

/-- C2 witness: a concrete transaction whose sender, recipient and amount all
    match the expectation but whose receipt has status 0 is rejected. -/
theorem c2_status_not_one_aborts_witness :
    verifyTestingReturn (str ("1.5"))
      ⟨some TESTING_WALLET, some GATEWAY, some (str ("0x14d1120d7b160000")), some (str ("0x1")),
        none⟩
      ⟨some (StatusField.asInt 0), some (str ("0x0")), some (str ("0x0")), none, []⟩ = none :=
  c2_status_not_one_aborts _ _ _ (Or.inr (Or.inl ⟨0, rfl, by decide⟩))

/-- C10: the gas-fee computation of _receipt_gas_fee_eth: whenever the two
    fields parse (which includes every receipt where a field is missing or
    empty, since those default to 0x0 rather than raising), the fee is exactly
    gas_used * effective_gas_price / 10^18 as a rational; the fee is never
    negative; and it is 0 whenever either field is missing or empty. -/
theorem c10_gas_fee_total_nonneg :
    (∀ (rec : Receipt) (g p : Nat), parseHexPy (orHex0 rec.gasUsed) = some g →
        parseHexPy (orHex0 rec.effectiveGasPrice) = some p →
        receiptGasFeeEth rec = some (((g * p : Nat) : ℚ) / 10 ^ 18)) ∧
    (∀ (rec : Receipt) (q : ℚ), receiptGasFeeEth rec = some q → 0 ≤ q) ∧
    (∀ rec : Receipt, (rec.gasUsed = none ∨ rec.gasUsed = some []) →
        ∀ p : Nat, parseHexPy (orHex0 rec.effectiveGasPrice) = some p →
        receiptGasFeeEth rec = some 0) ∧
    (∀ rec : Receipt, (rec.effectiveGasPrice = none ∨ rec.effectiveGasPrice = some []) →
        ∀ g : Nat, parseHexPy (orHex0 rec.gasUsed) = some g →
        receiptGasFeeEth rec = some 0) := by
  have hpair : ∀ (rec : Receipt) (g p : Nat), parseHexPy (orHex0 rec.gasUsed) = some g →
      parseHexPy (orHex0 rec.effectiveGasPrice) = some p →
      receiptGasFeeEth rec = some (((g * p : Nat) : ℚ) / 10 ^ 18) := by
    intro rec g p hg hp
    unfold receiptGasFeeEth receiptGasFeeWei
    rw [hg, hp]
    rfl
  refine ⟨hpair, ?_, ?_, ?_⟩
  · intro rec q hq
    unfold receiptGasFeeEth at hq
    cases hw : receiptGasFeeWei rec with
    | none => rw [hw] at hq; exact absurd hq (by simp)
    | some w =>
      rw [hw] at hq
      simp at hq
      subst hq
      positivity
  · intro rec hmiss p hp
    have h0 : orHex0 rec.gasUsed = str ("0x0") := by
      rcases hmiss with h | h <;> simp [orHex0, h]
    have hg : parseHexPy (orHex0 rec.gasUsed) = some 0 := by rw [h0]; decide
    have h2 := hpair rec 0 p hg hp
    rw [h2]
    norm_num
  · intro rec hmiss g hg
    have h0 : orHex0 rec.effectiveGasPrice = str ("0x0") := by
      rcases hmiss with h | h <;> simp [orHex0, h]
    have hp : parseHexPy (orHex0 rec.effectiveGasPrice) = some 0 := by rw [h0]; decide
    have h2 := hpair rec g 0 hg hp
    rw [h2]
    norm_num

/-- C10 witness: a concrete receipt with gasUsed 0x5208 and effectiveGasPrice
    0x3b9aca00 has fee 21000 * 1000000000 / 10^18 ETH. -/
theorem c10_gas_fee_total_nonneg_witness :
    receiptGasFeeEth ⟨none, some (str ("0x5208")), some (str ("0x3b9aca00")), none, []⟩ =
      some (((21000 * 1000000000 : Nat) : ℚ) / 10 ^ 18) :=
  c10_gas_fee_total_nonneg.1 _ 21000 1000000000 (by decide) (by decide)

/-- Step equation for decodeTransferLogs, aligning the sequential skip tests of
    the source loop with the keepLog predicate and the per-log decoder. -/
theorem decodeTransferLogs_cons (token : List Nat) (l : Log) (rest : List Log) :
    decodeTransferLogs token (l :: rest) =
      if keepLog token l then
        match decodeKept l, decodeTransferLogs token rest with
        | some e, some es => some (e :: es)
        | _, _ => none
      else decodeTransferLogs token rest := by
  have e1 : decodeTransferLogs token (l :: rest) =
      if lowerAddr l.address ≠ lowerAddr token then decodeTransferLogs token rest
      else if l.topics = [] then decodeTransferLogs token rest
      else if lowerStr (l.topics.headD []) ≠ TRANSFER_TOPIC0 then decodeTransferLogs token rest
      else if l.topics.length < 3 then decodeTransferLogs token rest
      else
        match decodeTopicAddr (l.topics.getD 1 []), decodeTopicAddr (l.topics.getD 2 []),
            parseHexPy (orHex0 (some l.data)), decodeTransferLogs token rest with
        | some f, some t, some v, some es => some (⟨f, t, v⟩ :: es)
        | _, _, _, _ => none := rfl
  rw [e1]
  by_cases hA : lowerAddr l.address = lowerAddr token
  · by_cases hB : l.topics = []
    · have hk : keepLog token l = false := decide_eq_false (fun hc => hc.2.1 hB)
      rw [if_neg (not_not_intro hA), if_pos hB, hk]
      simp
    · by_cases hC : lowerStr (l.topics.headD []) = TRANSFER_TOPIC0
      · by_cases hD : l.topics.length < 3
        · have hk : keepLog token l = false :=
            decide_eq_false (fun hc => absurd hc.2.2.2 (by omega))
          rw [if_neg (not_not_intro hA), if_neg hB, if_neg (not_not_intro hC), if_pos hD, hk]
          simp
        · have hk : keepLog token l = true := decide_eq_true ⟨hA, hB, hC, by omega⟩
          rw [if_neg (not_not_intro hA), if_neg hB, if_neg (not_not_intro hC), if_neg hD, hk]
          simp only [if_true]
          unfold decodeKept
          cases h1 : decodeTopicAddr (l.topics.getD 1 []) <;>
            cases h2 : decodeTopicAddr (l.topics.getD 2 []) <;>
            cases h3 : parseHexPy (orHex0 (some l.data)) <;>
            cases h4 : decodeTransferLogs token rest <;> simp
      · have hk : keepLog token l = false := decide_eq_false (fun hc => hC hc.2.2.1)
        rw [if_neg (not_not_intro hA), if_neg hB, if_pos hC, hk]
        simp
  · have hk : keepLog token l = false := decide_eq_false (fun hc => hA hc.1)
    rw [if_pos hA, hk]
    simp

/-- C4 counterexample: a log carrying four topics (address and first topic
    matching) is not excluded: it is decoded and returned, contradicting the
    claim that a log with more than three topics is excluded. -/
theorem c4_counterexample :
    (⟨LPT, [TRANSFER_TOPIC0,
        str ("0x000000000000000000000000c34b3753c164fbc3fc066fc1a46b3eee8adb33e6"),
        str ("0x0000000000000000000000008a8053c21696f27ed305a03bd1efc5d068d91d0e"),
        str ("0x0000000000000000000000000000000000000000000000000000000000000001")],
      str ("0x5"), str ("0xaa"), str ("0x1")⟩ : Log).topics.length = 4 ∧
    erc20TransfersInReceipt
      ⟨some (StatusField.asInt 1), none, none, none,
        [⟨LPT, [TRANSFER_TOPIC0,
          str ("0x000000000000000000000000c34b3753c164fbc3fc066fc1a46b3eee8adb33e6"),
          str ("0x0000000000000000000000008a8053c21696f27ed305a03bd1efc5d068d91d0e"),
          str ("0x0000000000000000000000000000000000000000000000000000000000000001")],
        str ("0x5"), str ("0xaa"), str ("0x1")⟩]⟩ LPT =
      some [⟨SAFE_WALLET, GATEWAY, 5⟩] := by decide

/-- C4 (amended): decode_erc20_transfers returns exactly the entries decoded,
    in receipt log order, from the logs whose emitting address equals the token
    case-insensitively, whose first topic equals the Transfer signature hash,
    and which carry at least three topics (not exactly three); each entry takes
    from and to as the low 20 bytes of topics 1 and 2 and the value as the data
    field read as a big-endian unsigned integer. -/
theorem c4_amended_transfer_decode (token : List Nat) (logs : List Log) :
    decodeTransferLogs token logs = (logs.filter (keepLog token)).mapM decodeKept := by
  induction logs with
  | nil => rfl
  | cons l rest ih =>
    rw [decodeTransferLogs_cons, List.filter_cons]
    cases hk : keepLog token l with
    | false => simp [ih]
    | true =>
      simp only [if_true, List.mapM_cons]
      cases hdk : decodeKept l with
      | none => simp
      | some e =>
        rw [ih]
        cases hm : (rest.filter (keepLog token)).mapM decodeKept <;> simp

/-- C4 amended witness: the characterization applied to the empty receipt log
    list. -/
theorem c4_amended_transfer_decode_witness :
    decodeTransferLogs LPT [] = (([] : List Log).filter (keepLog LPT)).mapM decodeKept :=
  c4_amended_transfer_decode LPT []

/-- C5 counterexample: a candidate transaction whose computed inflow and
    outflow sums are all zero is skipped by the classifier (continue: no row at
    all), rather than classified unknown with a classified row. -/
theorem c5_counterexample :
    convSums ⟨none, none, none, none, []⟩ = some ⟨0, 0, 0, 0, 0⟩ ∧
    conversionType ⟨0, 0, 0, 0, 0⟩ = none := by decide

/-- C5 (amended): the classifier is deterministic, and for every candidate with
    a nonzero lpt_out, usdc_in, weth_gross_in or weth_burn sum it emits exactly
    one of the three tags (LPT_to_USDC when lpt_out and usdc_in are positive,
    LPT_to_ETH_like when lpt_out is positive, usdc_in zero and weth_gross_in
    positive, unknown otherwise); a candidate with all four sums zero yields no
    row at all instead of an unknown row. -/
theorem c5_amended_classifier (s : ConvSums) :
    (conversionType s = none ↔
      s.lptOut = 0 ∧ s.usdcIn = 0 ∧ s.wethGrossIn = 0 ∧ s.wethBurn = 0) ∧
    (conversionType s = none ∨ conversionType s = some (str ("LPT_to_USDC")) ∨
      conversionType s = some (str ("LPT_to_ETH_like")) ∨
      conversionType s = some (str ("unknown"))) ∧
    (conversionType s = some (str ("LPT_to_USDC")) ↔ 0 < s.lptOut ∧ 0 < s.usdcIn) ∧
    (conversionType s = some (str ("LPT_to_ETH_like")) ↔
      0 < s.lptOut ∧ s.usdcIn = 0 ∧ 0 < s.wethGrossIn) := by
  have hne1 : str ("LPT_to_USDC") ≠ str ("LPT_to_ETH_like") := by decide
  have hne2 : str ("LPT_to_USDC") ≠ str ("unknown") := by decide
  have hne3 : str ("LPT_to_ETH_like") ≠ str ("unknown") := by decide
  unfold conversionType
  split_ifs with h1 h2 h3
  · obtain ⟨z1, z2, z3, z4⟩ := h1
    refine ⟨by simp [z1, z2, z3, z4], Or.inl rfl, ?_, ?_⟩
    · constructor
      · intro he
        exact absurd he (by simp)
      · intro hc
        omega
    · constructor
      · intro he
        exact absurd he (by simp)
      · intro hc
        omega
  · refine ⟨?_, Or.inr (Or.inl rfl), ?_, ?_⟩
    · constructor
      · intro he
        exact absurd he (by simp)
      · intro hz
        exact absurd hz h1
    · constructor
      · intro _
        exact h2
      · intro _
        rfl
    · constructor
      · intro he
        simp only [Option.some.injEq] at he
        exact absurd he hne1
      · intro hc
        omega
  · refine ⟨?_, Or.inr (Or.inr (Or.inl rfl)), ?_, ?_⟩
    · constructor
      · intro he
        exact absurd he (by simp)
      · intro hz
        exact absurd hz h1
    · constructor
      · intro he
        simp only [Option.some.injEq] at he
        exact absurd he.symm hne1
      · intro hc
        exact absurd hc h2
    · constructor
      · intro _
        have husdc : s.usdcIn = 0 := by omega
        exact ⟨h3.1, husdc, h3.2⟩
      · intro _
        rfl
  · refine ⟨?_, Or.inr (Or.inr (Or.inr rfl)), ?_, ?_⟩
    · constructor
      · intro he
        exact absurd he (by simp)
      · intro hz
        exact absurd hz h1
    · constructor
      · intro he
        simp only [Option.some.injEq] at he
        exact absurd he.symm hne2
      · intro hc
        exact absurd hc h2
    · constructor
      · intro he
        simp only [Option.some.injEq] at he
        exact absurd he.symm hne3
      · intro hc
        exact absurd ⟨hc.1, hc.2.2⟩ h3

/-- C1 counterexample: the scripts convert an expected decimal amount with
    to_integral_value under the default context rounding (ROUND_HALF_EVEN), not
    by truncating toward zero.  For the amount string 0.0000000000000000015 the
    product with 10^18 is 1.5: truncation gives 1, the code computes 2, and a
    transaction carrying exactly the truncated value 1 wei with matching
    sender, recipient and a successful receipt is rejected, contradicting the
    claim that the comparison uses the truncated value. -/
theorem c1_counterexample :
    parseDecimal (str ("0.0000000000000000015")) = some (15, 19) ∧
    roundHalfEven (15 * 10 ^ 18) (10 ^ 19) = 2 ∧
    Int.tdiv (15 * 10 ^ 18) (10 ^ 19) = 1 ∧
    verifyTestingReturn (str ("0.0000000000000000015"))
      ⟨some TESTING_WALLET, some GATEWAY, some (str ("0x1")), some (str ("0x1")), none⟩
      ⟨some (StatusField.asInt 1), some (str ("0x0")), some (str ("0x0")), none, []⟩ = none := by
  decide

/-- C1 (amended): the expected amount (c, e), read as the decimal c / 10^e, is
    multiplied by 10^18 and rounded to the nearest integer with ties to the
    even integer (ROUND_HALF_EVEN, the Decimal context default), not truncated;
    the verifier then requires the on-chain value to equal that rounded integer
    exactly.  Part one characterizes roundHalfEven as nearest-with-even-ties;
    part two shows a verified flow row forces the on-chain value to be exactly
    the rounded expected amount. -/
theorem c1_amended_half_even_conversion :
    (∀ a b : Int, 0 < b →
      2 * |a - roundHalfEven a b * b| ≤ b ∧
      (2 * |a - roundHalfEven a b * b| = b → 2 ∣ roundHalfEven a b)) ∧
    (∀ (amountEth : List Nat) (tx : Tx) (rec : Receipt) (row : FlowRow) (c : Int) (e : Nat),
      verifyTestingReturn amountEth tx rec = some row →
      parseDecimal amountEth = some (c, e) →
      ∃ v : Nat, parseHexPy (orHex0 tx.value) = some v ∧
        (v : Int) = roundHalfEven (c * 10 ^ 18) (10 ^ e) ∧ row.amountRaw = v) := by
  constructor
  · intro a b hb
    have hbne : b ≠ 0 := by omega
    have h := Int.ediv_add_emod a b
    have hkey : a - Int.ediv a b * b = Int.emod a b := by linear_combination -h
    have hkey2 : a - (Int.ediv a b + 1) * b = Int.emod a b - b := by linear_combination -h
    have hr0 : 0 ≤ Int.emod a b := Int.emod_nonneg a hbne
    have hrb : Int.emod a b < b := Int.emod_lt_of_pos a hb
    simp only [roundHalfEven]
    split_ifs with h1 h2 h3
    · rw [hkey, abs_of_nonneg hr0]
      omega
    · rw [hkey2, abs_of_nonpos (by omega)]
      omega
    · rw [hkey, abs_of_nonneg hr0]
      omega
    · rw [hkey2, abs_of_nonpos (by omega)]
      omega
  · intro amountEth tx rec row c e hrow hpd
    unfold verifyTestingReturn at hrow
    simp only [hpd] at hrow
    cases hok : receiptOk rec with
    | none => rw [hok] at hrow; exact absurd hrow (by simp)
    | some ok =>
      simp only [hok] at hrow
      cases hv : parseHexPy (orHex0 tx.value) with
      | none => rw [hv] at hrow; exact absurd hrow (by simp)
      | some gotVal =>
        simp only [hv] at hrow
        by_cases hcond : lowerAddr (orEmpty tx.fromA) = TESTING_WALLET ∧
            lowerAddr (orEmpty tx.toA) = GATEWAY ∧
            (gotVal : Int) = roundHalfEven (c * 10 ^ 18) (10 ^ e) ∧ ok = true
        · refine ⟨gotVal, rfl, hcond.2.2.1, ?_⟩
          rw [if_pos hcond] at hrow
          cases hbn : parseHexPy (orHex0 tx.blockNumber) with
          | none => rw [hbn] at hrow; exact absurd hrow (by simp)
          | some bn =>
            simp only [hbn] at hrow
            cases hgf : receiptGasFeeWei rec with
            | none => rw [hgf] at hrow; exact absurd hrow (by simp)
            | some gf =>
              simp only [hgf, Option.some.injEq] at hrow
              rw [← hrow]
        · rw [if_neg hcond] at hrow
          exact absurd hrow (by simp)

/-- C1 amended witness: rounding 3 / 2 half-to-even lands within half of the
    divisor of the true value and, being a tie, on an even integer. -/
theorem c1_amended_half_even_conversion_witness :
    2 * |(3 : Int) - roundHalfEven 3 2 * 2| ≤ 2 ∧
    (2 * |(3 : Int) - roundHalfEven 3 2 * 2| = 2 → 2 ∣ roundHalfEven 3 2) :=
  c1_amended_half_even_conversion.1 3 2 (by decide)

/-- C5 amended witness: positive lpt_out and usdc_in classify as
    LPT_to_USDC. -/
theorem c5_amended_classifier_witness :
    conversionType ⟨5, 7, 0, 0, 0⟩ = some (str ("LPT_to_USDC")) :=
  (c5_amended_classifier ⟨5, 7, 0, 0, 0⟩).2.2.1.mpr ⟨by decide, by decide⟩

/-- The mismatch list collects exactly the keys of the walked list that are
    present in the committed file and whose committed and recomputed decimal
    values differ. -/
theorem mismatchKeys_spec (expected recomputed : List (List Nat × List Nat)) :
    ∀ (ks ms : List (List Nat)), mismatchKeys expected recomputed ks = some ms →
      ∀ k, k ∈ ms ↔ k ∈ ks ∧ ∃ ev rv, lookupKV expected k = some ev ∧
        lookupKV recomputed k = some rv ∧ decEqStr ev rv = some false := by
  intro ks
  induction ks with
  | nil =>
    intro ms hms k
    have hms2 : some ([] : List (List Nat)) = some ms := hms
    simp only [Option.some.injEq] at hms2
    subst hms2
    simp
  | cons k0 ks ih =>
    intro ms hms k
    unfold mismatchKeys at hms
    cases he : lookupKV expected k0 with
    | none =>
      simp only [he] at hms
      rw [ih ms hms k]
      constructor
      · rintro ⟨hk, hP⟩
        exact ⟨List.mem_cons_of_mem _ hk, hP⟩
      · rintro ⟨hk, hP⟩
        rcases List.mem_cons.mp hk with rfl | hk2
        · obtain ⟨ev, rv, hev, _, _⟩ := hP
          rw [he] at hev
          exact absurd hev (by simp)
        · exact ⟨hk2, hP⟩
    | some ev =>
      simp only [he] at hms
      cases hr : lookupKV recomputed k0 with
      | none => simp only [hr] at hms; exact absurd hms (by simp)
      | some rv =>
        simp only [hr] at hms
        cases hd : decEqStr ev rv with
        | none => simp only [hd] at hms; exact absurd hms (by simp)
        | some b =>
          simp only [hd] at hms
          cases hrest : mismatchKeys expected recomputed ks with
          | none => simp only [hrest] at hms; exact absurd hms (by simp)
          | some rest =>
            simp only [hrest, Option.some.injEq] at hms
            subst hms
            have ihk := ih rest hrest k
            cases b with
            | true =>
              rw [if_pos rfl, ihk]
              constructor
              · rintro ⟨hk, hP⟩
                exact ⟨List.mem_cons_of_mem _ hk, hP⟩
              · rintro ⟨hk, hP⟩
                rcases List.mem_cons.mp hk with rfl | hk2
                · obtain ⟨ev2, rv2, hev2, hrv2, hde2⟩ := hP
                  rw [he] at hev2
                  rw [hr] at hrv2
                  simp only [Option.some.injEq] at hev2 hrv2
                  subst hev2
                  subst hrv2
                  rw [hd] at hde2
                  exact absurd hde2 (by simp)
                · exact ⟨hk2, hP⟩
            | false =>
              rw [if_neg (by simp)]
              constructor
              · intro hk
                rcases List.mem_cons.mp hk with rfl | hk2
                · exact ⟨List.mem_cons_self _ _, ⟨ev, rv, he, hr, hd⟩⟩
                · obtain ⟨hks, hP⟩ := ihk.mp hk2
                  exact ⟨List.mem_cons_of_mem _ hks, hP⟩
              · rintro ⟨hk, hP⟩
                rcases List.mem_cons.mp hk with rfl | hk2
                · exact List.mem_cons_self _ _
                · exact List.mem_cons_of_mem _ (ihk.mpr ⟨hk2, hP⟩)

/-- C3: the reconciliation comparison is decimal-exact, not approximate: the
    committed value 10.5 against the recomputed 10.500000000000000001 is
    reported as the mismatched key total_eth with completion code 2; and in
    general, with a committed totals file present, the run returns the distinct
    non-success code 2 exactly when at least one compared key mismatches and 0
    otherwise, the mismatch list holding exactly the keys of the fixed totals
    list that are present in the committed file with a different decimal value
    than the recomputed one. -/
theorem c3_exact_decimal_totals :
    (decEqStr (str ("10.5")) (str ("10.500000000000000001")) = some false ∧
     compareExitCode [(str ("total_eth"), str ("10.5"))]
       [(str ("total_eth"), str ("10.500000000000000001"))] = some 2 ∧
     mismatchKeys [(str ("total_eth"), str ("10.5"))]
       [(str ("total_eth"), str ("10.500000000000000001"))] totalsKeys =
       some [str ("total_eth")]) ∧
    (∀ expected recomputed ms, mismatchKeys expected recomputed totalsKeys = some ms →
      (expected ≠ [] → compareExitCode expected recomputed = some (if ms = [] then 0 else 2)) ∧
      (∀ k, k ∈ ms ↔ k ∈ totalsKeys ∧ ∃ ev rv, lookupKV expected k = some ev ∧
        lookupKV recomputed k = some rv ∧ decEqStr ev rv = some false)) := by
  constructor
  · exact ⟨by decide, by decide, by decide⟩
  · intro expected recomputed ms hms
    constructor
    · intro hne
      unfold compareExitCode
      rw [if_neg hne, hms]
    · exact mismatchKeys_spec expected recomputed totalsKeys ms hms

/-- C3 witness: committed 10.5 against recomputed 10.50 carries no mismatch
    (the comparison is on exact decimal values, with no tolerance) and the run
    completes with code 0. -/
theorem c3_exact_decimal_totals_witness :
    compareExitCode [(str ("total_eth"), str ("10.5"))]
      [(str ("total_eth"), str ("10.50"))] = some 0 := by
  have h := (c3_exact_decimal_totals.2 [(str ("total_eth"), str ("10.5"))]
    [(str ("total_eth"), str ("10.50"))] [] (by decide)).1 (by decide)
  simpa using h

/-- One direction tag contributes if t.dir = d then amount else 0 per row. -/
theorem dirSum_cons (d : List Nat) (t : TransferRow) (r : List TransferRow) :
    dirSum d (t :: r) = (if t.dir = d then t.amountRaw else 0) + dirSum d r := by
  unfold dirSum
  by_cases h : t.dir = d
  · simp [List.filter_cons, h]
  · simp [List.filter_cons, h]

/-- The accumulation loop equals the filtered sums, for any starting pair. -/
theorem usdcFold_aux (ts : List TransferRow) : ∀ p : Nat × Nat,
    ts.foldl (fun p t =>
      if t.dir = str ("in") then (p.1 + t.amountRaw, p.2)
      else if t.dir = str ("out") then (p.1, p.2 + t.amountRaw)
      else p) p = (p.1 + dirSum (str ("in")) ts, p.2 + dirSum (str ("out")) ts) := by
  induction ts with
  | nil => intro p; simp [dirSum]
  | cons t r ih =>
    intro p
    simp only [List.foldl_cons]
    by_cases h1 : t.dir = str ("in")
    · have hne : ¬ t.dir = str ("out") := by rw [h1]; decide
      rw [if_pos h1, ih, dirSum_cons, dirSum_cons, if_pos h1, if_neg hne]
      simp only [Prod.mk.injEq]
      omega
    · by_cases h2 : t.dir = str ("out")
      · rw [if_neg h1, if_pos h2, ih, dirSum_cons, dirSum_cons, if_pos h2, if_neg h1]
        simp only [Prod.mk.injEq]
        omega
      · rw [if_neg h1, if_neg h2, ih, dirSum_cons, dirSum_cons, if_neg h1, if_neg h2]
        simp only [Prod.mk.injEq]
        omega

/-- Python dict insertion preserves distinctness of the (tx hash, log index)
    keys. -/
theorem insertLog_pairwise (acc : List Log) (l : Log)
    (h : acc.Pairwise (fun a b => mergeKey a ≠ mergeKey b)) :
    (insertLog acc l).Pairwise (fun a b => mergeKey a ≠ mergeKey b) := by
  unfold insertLog
  split_ifs with hmem
  · have hmap : ∀ x : Log, mergeKey (if mergeKey x = mergeKey l then l else x) = mergeKey x := by
      intro x
      split_ifs with hx
      · rw [hx]
      · rfl
    refine List.Pairwise.map _ ?_ h
    intro a b hab
    rw [hmap a, hmap b]
    exact hab
  · rw [List.pairwise_append]
    refine ⟨h, List.pairwise_singleton _ _, ?_⟩
    intro a ha b hb
    simp only [List.mem_singleton] at hb
    subst hb
    intro heq
    apply hmem
    rw [List.any_eq_true]
    exact ⟨a, ha, by simp [heq]⟩

theorem foldl_insert_pairwise : ∀ ls acc : List Log,
    acc.Pairwise (fun a b => mergeKey a ≠ mergeKey b) →
    (ls.foldl insertLog acc).Pairwise (fun a b => mergeKey a ≠ mergeKey b) := by
  intro ls
  induction ls with
  | nil => intro acc h; exact h
  | cons x xs ih => intro acc h; exact ih _ (insertLog_pairwise acc x h)

/-- C9: the merged outflow and inflow queries are de-duplicated by
    (transaction hash, log index), so each log contributes at most once; the
    inflow and outflow totals are exactly the sums over the rows tagged in and
    out; net_raw equals inflow_total_raw minus outflow_total_raw; appending a
    self-tagged row changes neither total; and a decoded row is tagged self
    exactly when both its sender and recipient are the treasury. -/
theorem c9_dedup_self_net :
    (∀ outLogs inLogs : List Log,
      (mergeLogs outLogs inLogs).Pairwise (fun a b => mergeKey a ≠ mergeKey b)) ∧
    (∀ ts : List TransferRow,
      usdcTotals ts = (dirSum (str ("in")) ts, dirSum (str ("out")) ts) ∧
      usdcNetRaw ts = (dirSum (str ("in")) ts : Int) - (dirSum (str ("out")) ts : Int)) ∧
    (∀ (ts : List TransferRow) (row : TransferRow), row.dir = str ("self") →
      usdcTotals (ts ++ [row]) = usdcTotals ts) ∧
    (∀ (l : Log) (r : TransferRow), mkTransferRow l = some r →
      (r.dir = str ("self") ↔ r.fromA = TREASURY ∧ r.toA = TREASURY)) := by
  have htot : ∀ ts : List TransferRow,
      usdcTotals ts = (dirSum (str ("in")) ts, dirSum (str ("out")) ts) := by
    intro ts
    unfold usdcTotals
    rw [usdcFold_aux]
    simp
  refine ⟨?_, ?_, ?_, ?_⟩
  · intro outLogs inLogs
    exact foldl_insert_pairwise _ [] List.Pairwise.nil
  · intro ts
    refine ⟨htot ts, ?_⟩
    unfold usdcNetRaw
    rw [htot ts]
  · intro ts row hself
    have h1 : ¬ row.dir = str ("in") := by rw [hself]; decide
    have h2 : ¬ row.dir = str ("out") := by rw [hself]; decide
    unfold usdcTotals
    rw [List.foldl_append]
    simp [h1, h2]
  · intro l r hr
    unfold mkTransferRow at hr
    cases h1 : decodeTopicAddr (l.topics.getD 1 []) with
    | none => rw [h1] at hr; exact absurd hr (by simp)
    | some f =>
      simp only [h1] at hr
      cases h2 : decodeTopicAddr (l.topics.getD 2 []) with
      | none => rw [h2] at hr; exact absurd hr (by simp)
      | some t =>
        simp only [h2] at hr
        cases h3 : parseHexPy l.data with
        | none => rw [h3] at hr; exact absurd hr (by simp)
        | some v =>
          simp only [h3, Option.some.injEq] at hr
          subst hr
          simp only []
          unfold direction
          split_ifs with hs hf ht
          · simp [hs]
          · constructor
            · intro he
              exact absurd he (by decide)
            · intro hc
              exact absurd hc hs
          · constructor
            · intro he
              exact absurd he (by decide)
            · intro hc
              exact absurd hc hs
          · constructor
            · intro he
              exact absurd he (by decide)
            · intro hc
              exact absurd hc hs

/-- C9 witness: a concrete self transfer (treasury to treasury) contributes to
    neither the inflow nor the outflow total. -/
theorem c9_dedup_self_net_witness :
    usdcTotals ([] ++ [⟨TREASURY, TREASURY, str ("self"), 7⟩]) = usdcTotals [] :=
  c9_dedup_self_net.2.2.1 [] ⟨TREASURY, TREASURY, str ("self"), 7⟩ rfl

theorem dropWhile_ws_eq_self (s : List Nat) (h : ∀ c ∈ s, isWs c = false) :
    s.dropWhile isWs = s := by
  cases s with
  | nil => rfl
  | cons c r =>
    rw [List.dropWhile_cons, h c (List.mem_cons_self _ _)]
    simp

theorem pyStrip_eq_self (s : List Nat) (h : ∀ c ∈ s, isWs c = false) : pyStrip s = s := by
  unfold pyStrip
  rw [dropWhile_ws_eq_self s h,
    dropWhile_ws_eq_self s.reverse (fun c hc => h c (List.mem_reverse.mp hc)),
    List.reverse_reverse]

theorem lowerStr_eq_self (s : List Nat) (h : ∀ c ∈ s, lowerByte c = c) : lowerStr s = s := by
  unfold lowerStr
  induction s with
  | nil => rfl
  | cons c r ih =>
    rw [List.map_cons, h c (List.mem_cons_self _ _),
      ih (fun x hx => h x (List.mem_cons_of_mem _ hx))]

/-- A lowercase hex digit code (0-9 or a-f). -/
def isHexLower (c : Nat) : Prop := (48 ≤ c ∧ c ≤ 57) ∨ (97 ≤ c ∧ c ≤ 102)

instance : DecidablePred isHexLower := fun c => by
  unfold isHexLower
  infer_instance

theorem hexLower_not_ws (c : Nat) (h : isHexLower c) : isWs c = false := by
  simp only [isWs, Bool.or_eq_false_iff, decide_eq_false_iff_not]
  unfold isHexLower at h
  omega

theorem hexLower_lower_fix (c : Nat) (h : isHexLower c) : lowerByte c = c := by
  unfold lowerByte
  unfold isHexLower at h
  rw [if_neg (by omega)]

theorem hexLower_val_ne_none (c : Nat) (h : isHexLower c) : hexDigitVal c ≠ none := by
  unfold hexDigitVal
  rcases h with ⟨h1, h2⟩ | ⟨h1, h2⟩
  · rw [if_pos ⟨h1, h2⟩]
    simp
  · rw [if_neg (by omega), if_pos ⟨h1, h2⟩]
    simp

theorem parseHexDigitsAux_isSome (s : List Nat) (h : ∀ c ∈ s, hexDigitVal c ≠ none) :
    ∀ acc, ∃ v, parseHexDigitsAux s acc = some v := by
  induction s with
  | nil => intro acc; exact ⟨acc, rfl⟩
  | cons c r ih =>
    intro acc
    cases hd : hexDigitVal c with
    | none => exact absurd hd (h c (List.mem_cons_self _ _))
    | some d =>
      have := ih (fun x hx => h x (List.mem_cons_of_mem _ hx)) (acc * 16 + d)
      unfold parseHexDigitsAux
      rw [hd]
      exact this

/-- Hex-only nonempty strings always parse (no whitespace, no 0x prefix
    possible, every digit valid). -/
theorem parseHexPy_of_hexLower (s : List Nat) (hhex : ∀ c ∈ s, isHexLower c) (hne : s ≠ []) :
    ∃ v, parseHexPy s = some v ∧ parseHexDigits s = some v := by
  have hstrip : pyStrip s = s := pyStrip_eq_self s (fun c hc => hexLower_not_ws c (hhex c hc))
  have hpfx : dropHexPfx s = s := by
    unfold dropHexPfx
    rw [if_neg ?_]
    rintro (hp | hp)
    · have h120 : 120 ∈ s := List.take_subset 2 s (hp ▸ (by simp : 120 ∈ [48, 120]))
      have := hhex 120 h120
      unfold isHexLower at this
      omega
    · have h88 : 88 ∈ s := List.take_subset 2 s (hp ▸ (by simp : 88 ∈ [48, 88]))
      have := hhex 88 h88
      unfold isHexLower at this
      omega
  have hdig : ∃ v, parseHexDigits s = some v := by
    unfold parseHexDigits
    rw [if_neg hne]
    exact parseHexDigitsAux_isSome s (fun c hc => hexLower_val_ne_none c (hhex c hc)) 0
  obtain ⟨v, hv⟩ := hdig
  refine ⟨v, ?_, hv⟩
  unfold parseHexPy
  rw [hstrip, hpfx, hv]

/-- A 0x-prefixed 40-char lowercase hex string passes through _lower_addr
    unchanged. -/
theorem lowerAddr_canonical (w : List Nat) (hw : ∀ c ∈ w, isHexLower c)
    (hlen : w.length = 40) : lowerAddr ([48, 120] ++ w) = [48, 120] ++ w := by
  have hall : ∀ c ∈ [48, 120] ++ w, isWs c = false ∧ lowerByte c = c := by
    intro c hc
    rcases List.mem_append.mp hc with hc2 | hc2
    · simp only [List.mem_cons, List.not_mem_nil, or_false] at hc2
      rcases hc2 with rfl | rfl <;> exact ⟨by decide, by decide⟩
    · exact ⟨hexLower_not_ws c (hw c hc2), hexLower_lower_fix c (hw c hc2)⟩
  have hstrip : pyStrip ([48, 120] ++ w) = [48, 120] ++ w :=
    pyStrip_eq_self _ (fun c hc => (hall c hc).1)
  have hlower : lowerStr ([48, 120] ++ w) = [48, 120] ++ w :=
    lowerStr_eq_self _ (fun c hc => (hall c hc).2)
  simp only [lowerAddr]
  rw [hstrip, hlower]
  rw [if_neg (by simp), if_pos ⟨rfl, by simp [hlen]⟩]

set_option maxHeartbeats 1000000 in
/-- C7: over hex calldata, decode_safe_exec_transaction fails exactly when
    fewer than 4+32+32 bytes (136 hex chars) remain after stripping the
    optional 0x prefix; on success the destination is 0x plus the low 20 bytes
    (last 40 hex chars) of the first 32-byte word after the selector and the
    value is the second 32-byte word read as a big-endian unsigned integer. -/
theorem c7_safe_exec_decode (inputHex : List Nat)
    (hhex : ∀ c ∈ stripHexInput inputHex, isHexLower c) :
    (decodeSafeExecTransaction inputHex = none ↔ (stripHexInput inputHex).length < 136) ∧
    (∀ r : SafeExec, decodeSafeExecTransaction inputHex = some r →
      r.toA = [48, 120] ++ (((stripHexInput inputHex).drop 8).take 64).drop 24 ∧
      parseHexDigits (((stripHexInput inputHex).drop 72).take 64) = some r.valueWei) := by
  by_cases hlen : (stripHexInput inputHex).length < 136
  · constructor
    · constructor
      · intro _
        exact hlen
      · intro _
        simp only [decodeSafeExecTransaction]
        rw [if_pos hlen]
    · intro r hr
      simp only [decodeSafeExecTransaction] at hr
      rw [if_pos hlen] at hr
      exact absurd hr (by simp)
  · have hvw : ∀ c ∈ ((stripHexInput inputHex).drop 72).take 64, isHexLower c := by
      intro c hc
      exact hhex c (List.drop_subset _ _ (List.take_subset _ _ hc))
    have hvwne : ((stripHexInput inputHex).drop 72).take 64 ≠ [] := by
      have hl : (((stripHexInput inputHex).drop 72).take 64).length = 64 := by
        rw [List.length_take, List.length_drop]
        omega
      intro hnil
      rw [hnil] at hl
      simp at hl
    obtain ⟨v, hpv, hpd⟩ := parseHexPy_of_hexLower _ hvw hvwne
    have htw : ∀ c ∈ (((stripHexInput inputHex).drop 8).take 64).drop 24, isHexLower c := by
      intro c hc
      exact hhex c (List.drop_subset _ _ (List.take_subset _ _ (List.drop_subset _ _ hc)))
    have htwlen : ((((stripHexInput inputHex).drop 8).take 64).drop 24).length = 40 := by
      rw [List.length_drop, List.length_take, List.length_drop]
      omega
    have hcanon := lowerAddr_canonical _ htw htwlen
    constructor
    · constructor
      · intro hnone
        simp only [decodeSafeExecTransaction] at hnone
        rw [if_neg hlen] at hnone
        simp only [hpv] at hnone
        exact absurd hnone (by simp)
      · intro hc
        exact absurd hc hlen
    · intro r hr
      simp only [decodeSafeExecTransaction] at hr
      rw [if_neg hlen] at hr
      simp only [hpv, Option.some.injEq] at hr
      subst hr
      exact ⟨by rw [hcanon], by rw [hpd]⟩

set_option maxRecDepth 10000 in
/-- C7 witness: concrete 136-hex-char Safe execTransaction calldata decodes to
    the gateway destination, and the length characterization holds for it. -/
theorem c7_safe_exec_decode_witness :
    (decodeSafeExecTransaction (str ("0x6a7612020000000000000000000000008a8053c21696f27ed305a03bd1efc5d068d91d0e0000000000000000000000000000000000000000000000000000000000000005")) =
        none ↔
      (stripHexInput (str ("0x6a7612020000000000000000000000008a8053c21696f27ed305a03bd1efc5d068d91d0e0000000000000000000000000000000000000000000000000000000000000005"))).length <
        136) :=
  (c7_safe_exec_decode _ (by decide)).1

theorem sumLogData_append (a b : List Log) : sumLogData (a ++ b) =
    match sumLogData a, sumLogData b with
    | some (c1, t1), some (c2, t2) => some (c1 + c2, t1 + t2)
    | _, _ => none := by
  induction a with
  | nil =>
    cases hb : sumLogData b with
    | none => simp [sumLogData, hb]
    | some p =>
      obtain ⟨c, t⟩ := p
      simp [sumLogData, hb]
  | cons l r ih =>
    simp only [List.cons_append, sumLogData]
    rw [List.append_eq]
    cases hv : parseHexPy (orHex0 (some l.data)) with
    | none => rfl
    | some v =>
      rw [ih]
      cases hr : sumLogData r with
      | none => rfl
      | some p1 =>
        obtain ⟨c1, t1⟩ := p1
        cases hb : sumLogData b with
        | none => rfl
        | some p2 =>
          obtain ⟨c2, t2⟩ := p2
          simp only [Option.some.injEq, Prod.mk.injEq]
          omega

/-- A fetch oracle that always reports an oversized response. -/
def ovFetch : Nat → Nat → Except (List Nat) (List Log) :=
  fun _ _ => Except.error (str ("query returned more than 10000 results"))

/-- C6: the log range scanner terminates on every input range.  Part one: on a
    range whose every query reports an oversized response, the scan eventually
    fails with that error instead of looping (for any starting chunk size).
    Part two: an oversized-response error with the chunk size above the 10000
    floor makes the scan retry the same sub-range start with the chunk size
    halved (not below the floor), while at or below the floor the error
    propagates.  Part three: when every chunk succeeds, the scan returns the
    count and sum over the concatenation of the per-chunk logs in block
    order. -/
theorem c6_scan_backoff_terminates :
    (∀ (fetch : Nat → Nat → Except (List Nat) (List Log)) (ed cur chunk count total : Nat),
      cur ≤ ed →
      (∀ lo hi, ∃ e, fetch lo hi = Except.error e ∧ isOversizedMsg e = true) →
      ∃ e, scanLogs fetch ed cur chunk count total = Except.error (ScanErr.rpc e)) ∧
    (∀ (fetch : Nat → Nat → Except (List Nat) (List Log)) (ed cur chunk count total : Nat)
      (e : List Nat), cur ≤ ed →
      fetch cur (min (cur + (chunk - 1)) ed) = Except.error e → isOversizedMsg e = true →
      (10000 < chunk → scanLogs fetch ed cur chunk count total =
        scanLogs fetch ed cur (max 10000 (chunk / 2)) count total) ∧
      (chunk ≤ 10000 → scanLogs fetch ed cur chunk count total =
        Except.error (ScanErr.rpc e))) ∧
    (∀ (fetch : Nat → Nat → Except (List Nat) (List Log)) (logsFor : Nat → Nat → List Log),
      (∀ lo hi, fetch lo hi = Except.ok (logsFor lo hi)) →
      ∀ ed cur chunk count total,
        scanLogs fetch ed cur chunk count total =
          match sumLogData (catChunks logsFor (scanChunks ed cur chunk)) with
          | some (c, t) => Except.ok (count + c, total + t)
          | none => Except.error ScanErr.badData) := by
  refine ⟨?_, ?_, ?_⟩
  · intro fetch ed cur chunk count total hcur hfetch
    induction chunk using Nat.strong_induction_on with
    | _ chunk ih =>
      obtain ⟨e, hfe, hov⟩ := hfetch cur (min (cur + (chunk - 1)) ed)
      unfold scanLogs
      rw [dif_pos hcur]
      simp only [hfe]
      rw [if_pos hov]
      by_cases hchunk : chunk ≤ 10000
      · rw [dif_pos hchunk]
        exact ⟨e, rfl⟩
      · rw [dif_neg hchunk]
        exact ih (max 10000 (chunk / 2)) (by omega)
  · intro fetch ed cur chunk count total e hcur hfe hov
    constructor
    · intro h10
      conv_lhs => unfold scanLogs
      rw [dif_pos hcur]
      simp only [hfe]
      rw [if_pos hov, dif_neg (by omega)]
    · intro hle
      conv_lhs => unfold scanLogs
      rw [dif_pos hcur]
      simp only [hfe]
      rw [if_pos hov, dif_pos hle]
  · intro fetch logsFor hf ed
    suffices h : ∀ (n cur chunk count total : Nat), ed + 1 - cur ≤ n →
        scanLogs fetch ed cur chunk count total =
          match sumLogData (catChunks logsFor (scanChunks ed cur chunk)) with
          | some (c, t) => Except.ok (count + c, total + t)
          | none => Except.error ScanErr.badData by
      intro cur chunk count total
      exact h (ed + 1 - cur) cur chunk count total le_rfl
    intro n
    induction n with
    | zero =>
      intro cur chunk count total hn
      have hcur : ¬ cur ≤ ed := by omega
      unfold scanLogs scanChunks
      rw [dif_neg hcur, dif_neg hcur]
      simp [catChunks, sumLogData]
    | succ n ih =>
      intro cur chunk count total hn
      by_cases hcur : cur ≤ ed
      · conv_lhs => unfold scanLogs
        rw [dif_pos hcur]
        simp only [hf]
        conv_rhs => rw [scanChunks]
        rw [dif_pos hcur]
        have hcat : catChunks logsFor ((cur, min (cur + (chunk - 1)) ed) ::
            scanChunks ed (min (cur + (chunk - 1)) ed + 1) chunk) =
            logsFor cur (min (cur + (chunk - 1)) ed) ++
              catChunks logsFor (scanChunks ed (min (cur + (chunk - 1)) ed + 1) chunk) := rfl
        rw [hcat, sumLogData_append]
        cases hs : sumLogData (logsFor cur (min (cur + (chunk - 1)) ed)) with
        | none => rfl
        | some p =>
          obtain ⟨c, t⟩ := p
          have hrec := ih (min (cur + (chunk - 1)) ed + 1) chunk (count + c) (total + t)
            (by omega)
          dsimp only
          rw [hrec]
          cases hs2 : sumLogData (catChunks logsFor
              (scanChunks ed (min (cur + (chunk - 1)) ed + 1) chunk)) with
          | none => rfl
          | some p2 =>
            obtain ⟨c2, t2⟩ := p2
            dsimp only
            simp only [Except.ok.injEq, Prod.mk.injEq]
            omega
      · unfold scanLogs scanChunks
        rw [dif_neg hcur, dif_neg hcur]
        simp [catChunks, sumLogData]

/-- C6 witness: on a range whose every query reports an oversized response,
    the scan starting from the scripts default chunk size of 2000000 fails
    with a propagated oversized error rather than looping. -/
theorem c6_scan_backoff_terminates_witness :
    ∃ e, scanLogs ovFetch 100 0 2000000 0 0 = Except.error (ScanErr.rpc e) :=
  c6_scan_backoff_terminates.1 ovFetch 100 0 2000000 0 0 (by omega)
    (fun _ _ => ⟨str ("query returned more than 10000 results"), rfl, by decide⟩)

/-- C8 counterexample: the address normalization of the scripts does not
    enforce the 42-character invariant; the nonempty input 0xabc normalizes to
    a 5-character string under both variants, not a 42-character one. -/
theorem c8_counterexample :
    str ("0xabc") ≠ ([] : List Nat) ∧
    (lowerAddr (str ("0xabc"))).length = 5 ∧
    (lowerAddrP (str ("0xabc"))).length = 5 := by decide

/-- C8 (amended): the normalization lowercases, strips and ensures a 0x prefix,
    but does not pad or validate; for nonempty input the output starts with 0x,
    and has exactly 42 characters precisely when the stripped lowercased input
    is itself a 0x-prefixed 42-character string or an unprefixed 40-character
    string; already-canonical addresses are returned unchanged. -/
theorem c8_amended_lower_addr (s : List Nat) (h : lowerStr (pyStrip s) ≠ []) :
    (lowerAddr s).take 2 = [48, 120] ∧
    ((lowerAddr s).length = 42 ↔
      ((lowerStr (pyStrip s)).take 2 = [48, 120] ∧ (lowerStr (pyStrip s)).length = 42) ∨
      ((lowerStr (pyStrip s)).take 2 ≠ [48, 120] ∧ (lowerStr (pyStrip s)).length = 40)) ∧
    ((lowerStr (pyStrip s)).take 2 = [48, 120] ∧ (lowerStr (pyStrip s)).length = 42 →
      lowerAddr s = lowerStr (pyStrip s)) := by
  simp only [lowerAddr]
  split_ifs with h1 h2 h3
  · exact absurd h1 h
  · refine ⟨h2.1, ?_, fun _ => rfl⟩
    constructor
    · intro hl
      exact Or.inl ⟨h2.1, hl⟩
    · intro hc
      rcases hc with ⟨_, hl⟩ | ⟨hpfx, _⟩
      · exact hl
      · exact absurd h2.1 hpfx
  · have hlen2 : 2 ≤ (lowerStr (pyStrip s)).length := by
      have := congrArg List.length h3
      simp [List.length_take] at this
      omega
    have hne42 : (lowerStr (pyStrip s)).length ≠ 42 := fun hl => h2 ⟨h3, hl⟩
    refine ⟨rfl, ?_, ?_⟩
    · simp only [List.length_append, List.length_drop, List.length_cons, List.length_nil]
      constructor
      · intro hl
        omega
      · intro hc
        rcases hc with ⟨_, hl⟩ | ⟨hpfx, _⟩
        · exact absurd hl hne42
        · exact absurd h3 hpfx
    · intro hc
      exact absurd hc.2 hne42
  · refine ⟨rfl, ?_, ?_⟩
    · simp only [List.length_append, List.length_cons, List.length_nil]
      constructor
      · intro hl
        exact Or.inr ⟨h3, by omega⟩
      · intro hc
        rcases hc with ⟨hpfx, _⟩ | ⟨_, hl⟩
        · exact absurd hpfx h3
        · omega
    · intro hc
      exact absurd hc.1 h3

/-- C8 amended witness: a canonical mixed-case address with surrounding
    whitespace normalizes to its 42-character lowercase form. -/
theorem c8_amended_lower_addr_witness :
    (lowerAddr (str ("  0xA03113BAB8D4EBE5695591F60011741233E8B82F "))).take 2 = [48, 120] ∧
    ((lowerAddr (str ("  0xA03113BAB8D4EBE5695591F60011741233E8B82F "))).length = 42 ↔
      ((lowerStr (pyStrip (str ("  0xA03113BAB8D4EBE5695591F60011741233E8B82F ")))).take 2 =
          [48, 120] ∧
        (lowerStr (pyStrip (str ("  0xA03113BAB8D4EBE5695591F60011741233E8B82F ")))).length = 42) ∨
      ((lowerStr (pyStrip (str ("  0xA03113BAB8D4EBE5695591F60011741233E8B82F ")))).take 2 ≠
          [48, 120] ∧
        (lowerStr (pyStrip (str ("  0xA03113BAB8D4EBE5695591F60011741233E8B82F ")))).length =
          40)) ∧
    ((lowerStr (pyStrip (str ("  0xA03113BAB8D4EBE5695591F60011741233E8B82F ")))).take 2 =
        [48, 120] ∧
      (lowerStr (pyStrip (str ("  0xA03113BAB8D4EBE5695591F60011741233E8B82F ")))).length = 42 →
      lowerAddr (str ("  0xA03113BAB8D4EBE5695591F60011741233E8B82F ")) =
        lowerStr (pyStrip (str ("  0xA03113BAB8D4EBE5695591F60011741233E8B82F ")))) :=
  c8_amended_lower_addr _ (by decide)

end Audit
